import Mathlib

/-!
Shallow embedding of `src/dependency_collector.py` (class `ModuleUseCollector`,
an `ast.NodeVisitor` subclass) and proofs about it.

The Python code walks a parsed syntax tree keeping a `ChainMap` of scope
frames (innermost first), where a frame entry maps a local name either to the
qualified origin string it was imported as, or to `None` (a mask set by a
store/delete of that name).  Class bodies push a read-only frame
(`MappingProxyType`); writing to it raises `TypeError`, which is caught only
in `visit_Name` (store/delete), not in `visit_Import`/`visit_ImportFrom`.
`visit_Lambda` calls `self.visit_Function`, a method that does not exist, so
visiting a lambda raises `AttributeError`.
-/

namespace DepCollect

/-- `ast.Name.ctx`: `Load`, `Store` or `Del`. -/
inductive Ctx where
  | load
  | store
  | del
deriving DecidableEq, Repr

/-- `ast.alias`: an entry of an import statement's `names` list. -/
structure Alias where
  name : String
  asname : Option String
deriving DecidableEq, Repr

/-- The node categories the collector distinguishes, with children in the
field order of the Python `ast` module (which is the order `generic_visit`
recurses in).  `attribute` keeps its attribute name as a plain string, as in
`ast.Attribute`, where `attr` is an identifier, not a child node. -/
inductive Node where
  | functionDef (body : List Node)
  | lambda (body : Node)
  | classDef (body : List Node)
  | importStmt (names : List Alias)
  | importFrom (module : Option String) (names : List Alias) (level : Nat)
  | name (id : String) (ctx : Ctx) (lineno : Nat)
  | assign (targets : List Node) (value : Node)
  | exprStmt (value : Node)
  | attrAccess (value : Node) (attr : String)
  | call (func : Node) (args : List Node)
  | ret (value : Option Node)
  | constant
deriving Repr

/-- Python `str.split('.')` on the characters of the string:
`''.split('.') == ['']`, `'a.b'.split('.') == ['a','b']`. -/
def splitDotsAux : List Char → List Char → List String
  | [], acc => [String.mk acc.reverse]
  | c :: cs, acc =>
    if c = '.' then String.mk acc.reverse :: splitDotsAux cs []
    else splitDotsAux cs (c :: acc)

/-- Python `s.split('.')`. -/
def splitDots (s : String) : List String :=
  splitDotsAux s.toList []

/-- Python `'.'.join(l)`. -/
def joinDots : List String → String
  | [] => ""
  | [s] => s
  | s :: rest => s ++ "." ++ joinDots rest

/-- The analysis parameters of `ModuleUseCollector.__init__`: the target
module's dotted name and the hosting package's dotted name. -/
structure Collector where
  modulename : String
  package : String
deriving DecidableEq, Repr

/-- `self.modulepackage`: the first component of
`modulename.rpartition('.')` (everything before the last dot; `""` when
there is no dot). -/
def Collector.modulepackage (p : Collector) : String :=
  joinDots (splitDots p.modulename).dropLast

/-- `self.modulestem`: the last component of `modulename.rpartition('.')`
(everything after the last dot; the whole name when there is no dot). -/
def Collector.modulestem (p : Collector) : String :=
  (splitDots p.modulename).getLastD ""

/-- One scope frame: a Python dict (modelled as an insertion-ordered
association list from name to `Option String`, where `none` is the mask
value Python writes as `None`), plus whether the dict is writable.  The
class-body frame is a `MappingProxyType` and is not writable. -/
structure Frame where
  entries : List (String × Option String)
  isMutable : Bool
deriving DecidableEq, Repr

instance : Inhabited Frame := ⟨⟨[], true⟩⟩

/-- Dict write `m[k] = v`: replace in place if the key is present, else
append (Python dict insertion order). -/
def setKey : List (String × Option String) → String → Option String →
    List (String × Option String)
  | [], k, v => [(k, v)]
  | (k', v') :: rest, k, v =>
    if k' = k then (k, v) :: rest else (k', v') :: setKey rest k v

/-- Dict read `m.get(k)` distinguishing "absent" from "present with value". -/
def getKey : List (String × Option String) → String → Option (Option String)
  | [], _ => none
  | (k', v') :: rest, k => if k' = k then some v' else getKey rest k

/-- `ChainMap.get(key)`: scan frames innermost-to-outermost, returning the
first frame's entry for the key; `none` when no frame binds it. -/
def lookupChain (key : String) : List Frame → Option (Option String)
  | [] => none
  | f :: rest =>
    match getKey f.entries key with
    | some v => some v
    | none => lookupChain key rest

/-- The two exceptions the Python code can raise out of the walk:
`TypeError` from writing a read-only class frame in an import visitor (not
caught there), and `AttributeError` from `visit_Lambda` calling the
nonexistent `self.visit_Function`. -/
inductive Err where
  | typeError
  | attributeError
deriving DecidableEq, Repr

/-- Collector state: `self.scopes` (innermost frame first; a fresh
`ChainMap()` holds one empty mutable dict) and `self.used_at`. -/
structure St where
  scopes : List Frame
  used_at : List (String × String × Nat)
deriving DecidableEq, Repr

/-- `self.scopes.new_child(...)`. -/
def pushFrame (m : Bool) (scopes : List Frame) : List Frame :=
  ⟨[], m⟩ :: scopes

/-- `self.scopes.parents`: drop the innermost map; `ChainMap(*maps[1:])`
falls back to a fresh one-dict chain when no maps remain. -/
def popFrame : List Frame → List Frame
  | [] => [⟨[], true⟩]
  | [_] => [⟨[], true⟩]
  | _ :: rest => rest

/-- `self.scopes.update(pairs)`: `MutableMapping.update` performs
`self[k] = v` per pair, each writing the innermost map; the first write to a
read-only class frame raises `TypeError` (an empty update writes nothing and
cannot raise). -/
def updateScopes (pairs : List (String × Option String)) :
    List Frame → Except Err (List Frame)
  | [] => if pairs = [] then .ok [] else .error .typeError
  | f :: rest =>
    if pairs = [] then .ok (f :: rest)
    else if f.isMutable then
      .ok ({ f with entries := pairs.foldl (fun m q => setKey m q.1 q.2) f.entries } :: rest)
    else .error .typeError

/-- `self.scopes[id] = None` under `try ... except TypeError: pass`
(the store/delete branch of `visit_Name`). -/
def maskName (id : String) : List Frame → List Frame
  | [] => []
  | f :: rest =>
    if f.isMutable then { f with entries := setKey f.entries id none } :: rest
    else f :: rest

/-- The dict comprehension of `visit_Import`:
`{a.asname or a.name: a.name for a in node.names if a.name == self.modulename}`. -/
def importPairs (p : Collector) (names : List Alias) :
    List (String × Option String) :=
  names.filterMap fun a =>
    if a.name = p.modulename then some (a.asname.getD a.name, some a.name)
    else none

/-- Lines 79–85 of `visit_ImportFrom`: resolve the absolute source module of
a from-import.  `module` is `node.module` (`none` when no module is written);
Python string truthiness makes an empty written module behave like `none`. -/
def fromSource (p : Collector) (module : Option String) (level : Nat) :
    Option String :=
  if level ≠ 0 then
    let package :=
      if level > 1 then
        joinDots ((splitDots p.package).take ((splitDots p.package).length - (level - 1)))
      else p.package
    match module with
    | some s => if s ≠ "" then some (package ++ "." ++ s) else some package
    | none => some package
  else module

/-- The dict comprehension of the `self.modulename == source` branch:
every imported name `n` maps to `f'{self.modulename}.{n}'`. -/
def fromPairsExact (p : Collector) (names : List Alias) :
    List (String × Option String) :=
  names.map fun a => (a.asname.getD a.name, some (p.modulename ++ "." ++ a.name))

/-- The dict comprehension of the `self.modulepackage == source` branch:
imported names equal to the stem map to `self.modulename`. -/
def fromPairsParent (p : Collector) (names : List Alias) :
    List (String × Option String) :=
  names.filterMap fun a =>
    if a.name = p.modulestem then some (a.asname.getD a.name, some p.modulename)
    else none

mutual

/-- `ast.NodeVisitor.visit` dispatch: the five `visit_*` methods of
`ModuleUseCollector` plus `generic_visit` (recurse into children in field
order) for every other node category.  Exceptions propagate as `Except`
errors; in particular a raised exception skips the scope pop that follows
`generic_visit` in `visit_FunctionDef`/`visit_ClassDef`. -/
def visit (p : Collector) : Node → St → Except Err St
  | .functionDef body, st =>
    match visitList p body { st with scopes := pushFrame true st.scopes } with
    | .ok st2 => .ok { st2 with scopes := popFrame st2.scopes }
    | .error e => .error e
  | .lambda _, _ =>
    -- `visit_Lambda` calls `self.visit_Function(node)`; no such method exists
    .error .attributeError
  | .classDef body, st =>
    match visitList p body { st with scopes := pushFrame false st.scopes } with
    | .ok st2 => .ok { st2 with scopes := popFrame st2.scopes }
    | .error e => .error e
  | .importStmt names, st =>
    match updateScopes (importPairs p names) st.scopes with
    | .ok scopes' => .ok { st with scopes := scopes' }
    | .error e => .error e
  | .importFrom module names level, st =>
    if some p.modulename = fromSource p module level then
      match updateScopes (fromPairsExact p names) st.scopes with
      | .ok scopes' => .ok { st with scopes := scopes' }
      | .error e => .error e
    else if p.modulepackage ≠ "" ∧ some p.modulepackage = fromSource p module level then
      match updateScopes (fromPairsParent p names) st.scopes with
      | .ok scopes' => .ok { st with scopes := scopes' }
      | .error e => .error e
    else
      .ok st
  | .name id ctx lineno, st =>
    if ctx ≠ .load then
      .ok { st with scopes := maskName id st.scopes }
    else
      match lookupChain id st.scopes with
      | some (some origin) => .ok { st with used_at := st.used_at ++ [(origin, id, lineno)] }
      | _ => .ok st
  | .assign targets value, st =>
    match visitList p targets st with
    | .ok st1 => visit p value st1
    | .error e => .error e
  | .exprStmt value, st => visit p value st
  | .attrAccess value _, st => visit p value st
  | .call func args, st =>
    match visit p func st with
    | .ok st1 => visitList p args st1
    | .error e => .error e
  | .ret value, st =>
    match value with
    | some v => visit p v st
    | none => .ok st
  | .constant, st => .ok st

/-- Visit a list of child nodes in order. -/
def visitList (p : Collector) : List Node → St → Except Err St
  | [], st => .ok st
  | n :: ns, st =>
    match visit p n st with
    | .ok st1 => visitList p ns st1
    | .error e => .error e

end

/-- The state after `__init__`: a fresh `ChainMap()` (one empty mutable
dict) and an empty `used_at` list. -/
def initState : St := ⟨[⟨[], true⟩], []⟩

/-- One full run: construct the collector and visit the module body, i.e.
`collector.visit(ast.parse(source))`, returning `used_at` in traversal
order (or the uncaught exception). -/
def runCollector (modulename package : String) (body : List Node) :
    Except Err (List (String × String × Nat)) :=
  (visitList ⟨modulename, package⟩ body initState).map St.used_at

instance {ε α : Type} [DecidableEq ε] [DecidableEq α] : DecidableEq (Except ε α) :=
  fun x y =>
    match x, y with
    | .ok a, .ok b =>
      if h : a = b then .isTrue (by rw [h])
      else .isFalse (fun hc => by cases hc; exact h rfl)
    | .error a, .error b =>
      if h : a = b then .isTrue (by rw [h])
      else .isFalse (fun hc => by cases hc; exact h rfl)
    | .ok _, .error _ => .isFalse (fun hc => by cases hc)
    | .error _, .ok _ => .isFalse (fun hc => by cases hc)

/-! ## The spec's test scenarios as syntax trees

Each scenario is the tree the Python parser produces for the spec's source
text; note that a dotted use such as `foo.bar.baz` parses as
`Attribute(Attribute(Name('foo'), 'bar'), 'baz')`, so the only `Name` node
in it carries the single identifier `foo`. -/

/-- Scenario A source: `import foo.bar` then `foo.bar.baz()` on line 2. -/
def scenarioA : List Node :=
  [ .importStmt [⟨"foo.bar", none⟩],
    .exprStmt (.call (.attrAccess (.attrAccess (.name "foo" .load 2) "bar") "baz") []) ]

/-- Scenario B source: `from . import sub` then `sub.value` on line 2. -/
def scenarioB : List Node :=
  [ .importFrom none [⟨"sub", none⟩] 1,
    .exprStmt (.attrAccess (.name "sub" .load 2) "value") ]

/-- Scenario C source: `import foo.bar as fb`; `def f():` with body
`fb = 5` (line 3) and `return fb` (line 4); then `fb.attr` on line 5. -/
def scenarioC : List Node :=
  [ .importStmt [⟨"foo.bar", some "fb"⟩],
    .functionDef
      [ .assign [.name "fb" .store 3] .constant,
        .ret (some (.name "fb" .load 4)) ],
    .exprStmt (.attrAccess (.name "fb" .load 5) "attr") ]

/-- Scenario D source: `import foo.bar as fb`; `class C:` with body
`fb = None` (line 3); then `fb.attr` on line 4. -/
def scenarioD : List Node :=
  [ .importStmt [⟨"foo.bar", some "fb"⟩],
    .classDef [.assign [.name "fb" .store 3] .constant],
    .exprStmt (.attrAccess (.name "fb" .load 4) "attr") ]

/-- A module whose only statement is the expression `lambda: 0`. -/
def lambdaModule : List Node :=
  [ .exprStmt (.lambda .constant) ]

/-- A module whose only statement is a class whose body imports the target
module under an alias: `class C:` / `    import foo.bar as fb`. -/
def classImportModule : List Node :=
  [ .classDef [.importStmt [⟨"foo.bar", some "fb"⟩]] ]

/-- The spec's words for resolving a relative import's base: the hosting
package with its last `L-1` dot-separated components stripped, unmodified
when `L = 1`. -/
def strippedBase (package : String) (level : Nat) : String :=
  if level = 1 then package
  else joinDots ((splitDots package).take ((splitDots package).length - (level - 1)))

/-! ## Small dictionary lemmas -/

/-- `splitDotsAux` never returns an empty list. -/
theorem splitDotsAux_ne_nil (cs acc : List Char) : splitDotsAux cs acc ≠ [] := by
  induction cs generalizing acc with
  | nil => simp [splitDotsAux]
  | cons c cs ih =>
    by_cases hc : c = '.' <;> simp [splitDotsAux, hc, ih]

/-- A split dotted name always has at least one component. -/
theorem splitDots_ne_nil (s : String) : splitDots s ≠ [] :=
  splitDotsAux_ne_nil s.toList []

/-- An empty update leaves the chain untouched and cannot raise. -/
theorem updateScopes_nil (scopes : List Frame) :
    updateScopes [] scopes = .ok scopes := by
  cases scopes <;> simp [updateScopes]

/-- Writing one key leaves every other key's entry alone. -/
theorem getKey_setKey (m : List (String × Option String)) (k k' : String)
    (v' : Option String) :
    getKey (setKey m k' v') k = if k' = k then some v' else getKey m k := by
  induction m with
  | nil =>
    by_cases h : k' = k <;> simp [setKey, getKey, h]
  | cons q rest ih =>
    obtain ⟨q1, q2⟩ := q
    by_cases h1 : q1 = k'
    · subst h1
      by_cases h2 : q1 = k <;> simp [setKey, getKey, h2]
    · by_cases h2 : q1 = k
      · subst h2
        have h3 : ¬ k' = q1 := fun hk => h1 hk.symm
        simp [setKey, getKey, h1, h3]
      · simp [setKey, getKey, h1, h2, ih]

/-- Folding writes whose keys all differ from `k` does not change the entry
at `k`. -/
theorem getKey_foldl_of_not_mem (qs m : List (String × Option String))
    (k : String) (hk : ∀ q ∈ qs, q.1 ≠ k) :
    getKey (qs.foldl (fun m q => setKey m q.1 q.2) m) k = getKey m k := by
  induction qs generalizing m with
  | nil => simp
  | cons q rest ih =>
    simp only [List.foldl_cons]
    rw [ih _ (fun q hq => hk q (List.mem_cons_of_mem _ hq))]
    rw [getKey_setKey]
    simp [hk q (List.mem_cons_self _ _)]

/-- Folding writes that all carry the same value `v`, one of which has key
`k`, leaves the entry at `k` equal to `v`. -/
theorem getKey_foldl_of_mem (qs m : List (String × Option String))
    (k : String) (v : Option String)
    (hmem : (k, v) ∈ qs) (hall : ∀ q ∈ qs, q.2 = v) :
    getKey (qs.foldl (fun m q => setKey m q.1 q.2) m) k = some v := by
  induction qs generalizing m with
  | nil => cases hmem
  | cons q rest ih =>
    simp only [List.foldl_cons]
    by_cases hr : ∃ v', (k, v') ∈ rest
    · obtain ⟨v', hv'⟩ := hr
      have hv : v' = v := hall (k, v') (List.mem_cons_of_mem _ hv')
      subst hv
      exact ih _ hv' (fun q hq => hall q (List.mem_cons_of_mem _ hq))
    · have hknot : ∀ q' ∈ rest, q'.1 ≠ k := by
        intro q' hq' hkq'
        exact hr ⟨q'.2, by rw [← hkq']; exact hq'⟩
      rw [getKey_foldl_of_not_mem rest _ k hknot, getKey_setKey]
      have hq : q = (k, v) := by
        rcases List.mem_cons.mp hmem with h | h
        · exact h.symm
        · exact absurd ⟨v, h⟩ hr
      rw [hq]
      simp

/-! ## Scope-chain invariants -/

/-- A successful `updateScopes` touches only the innermost frame: the tail
of the chain is unchanged and a nonempty chain stays nonempty. -/
theorem updateScopes_ok_tail {pairs : List (String × Option String)}
    {scopes scopes' : List Frame} (h : updateScopes pairs scopes = .ok scopes') :
    scopes'.tail = scopes.tail ∧ (scopes ≠ [] → scopes' ≠ []) := by
  cases scopes with
  | nil =>
    by_cases hp : pairs = []
    · simp [updateScopes, hp] at h
      simp [← h]
    · simp [updateScopes, hp] at h
  | cons f rest =>
    by_cases hp : pairs = []
    · simp [updateScopes, hp] at h
      simp [← h]
    · by_cases hm : f.isMutable = true <;> simp [updateScopes, hp, hm] at h
      simp [← h]

/-- `maskName` touches only the innermost frame. -/
theorem maskName_tail (id : String) (scopes : List Frame) :
    (maskName id scopes).tail = scopes.tail ∧ (scopes ≠ [] → maskName id scopes ≠ []) := by
  cases scopes with
  | nil => simp [maskName]
  | cons f rest => by_cases hm : f.isMutable = true <;> simp [maskName, hm]

mutual

/-- Visiting any node can change only the innermost frame of the chain it
was given: on success the tail of `scopes` is preserved and the chain stays
nonempty (pushes and pops inside the visit are balanced). -/
theorem visit_scopes_tail (p : Collector) (n : Node) (st st' : St)
    (h : visit p n st = .ok st') (h0 : st.scopes ≠ []) :
    st'.scopes ≠ [] ∧ st'.scopes.tail = st.scopes.tail := by
  cases n with
  | functionDef body =>
    rw [visit] at h
    cases hv : visitList p body { st with scopes := pushFrame true st.scopes } with
    | error e => rw [hv] at h; exact absurd h (by simp)
    | ok st2 =>
      rw [hv] at h
      simp only [Except.ok.injEq] at h
      obtain ⟨hne, htl⟩ :=
        visitList_scopes_tail p body _ st2 hv (by simp [pushFrame])
      cases hsc2 : st2.scopes with
      | nil => exact absurd hsc2 hne
      | cons g gs =>
        rw [hsc2] at htl
        simp only [pushFrame, List.tail_cons] at htl
        cases hsc : st.scopes with
        | nil => exact absurd hsc h0
        | cons f0 r =>
          rw [← h]
          simp only [hsc2, htl, hsc, popFrame]
          simp
  | lambda body => exact absurd h (by simp [visit])
  | classDef body =>
    rw [visit] at h
    cases hv : visitList p body { st with scopes := pushFrame false st.scopes } with
    | error e => rw [hv] at h; exact absurd h (by simp)
    | ok st2 =>
      rw [hv] at h
      simp only [Except.ok.injEq] at h
      obtain ⟨hne, htl⟩ :=
        visitList_scopes_tail p body _ st2 hv (by simp [pushFrame])
      cases hsc2 : st2.scopes with
      | nil => exact absurd hsc2 hne
      | cons g gs =>
        rw [hsc2] at htl
        simp only [pushFrame, List.tail_cons] at htl
        cases hsc : st.scopes with
        | nil => exact absurd hsc h0
        | cons f0 r =>
          rw [← h]
          simp only [hsc2, htl, hsc, popFrame]
          simp
  | importStmt names =>
    rw [visit] at h
    cases hu : updateScopes (importPairs p names) st.scopes with
    | error e => rw [hu] at h; exact absurd h (by simp)
    | ok scopes' =>
      rw [hu] at h
      simp only [Except.ok.injEq] at h
      obtain ⟨htl, hne⟩ := updateScopes_ok_tail hu
      rw [← h]
      exact ⟨hne h0, htl⟩
  | importFrom module names level =>
    rw [visit] at h
    split at h
    · cases hu : updateScopes (fromPairsExact p names) st.scopes with
      | error e => rw [hu] at h; exact absurd h (by simp)
      | ok scopes' =>
        rw [hu] at h
        simp only [Except.ok.injEq] at h
        obtain ⟨htl, hne⟩ := updateScopes_ok_tail hu
        rw [← h]
        exact ⟨hne h0, htl⟩
    · split at h
      · cases hu : updateScopes (fromPairsParent p names) st.scopes with
        | error e => rw [hu] at h; exact absurd h (by simp)
        | ok scopes' =>
          rw [hu] at h
          simp only [Except.ok.injEq] at h
          obtain ⟨htl, hne⟩ := updateScopes_ok_tail hu
          rw [← h]
          exact ⟨hne h0, htl⟩
      · simp only [Except.ok.injEq] at h
        rw [← h]
        exact ⟨h0, rfl⟩
  | name id ctx lineno =>
    rw [visit] at h
    split at h
    · simp only [Except.ok.injEq] at h
      obtain ⟨htl, hne⟩ := maskName_tail id st.scopes
      rw [← h]
      exact ⟨hne h0, htl⟩
    · split at h <;> (simp only [Except.ok.injEq] at h; rw [← h]; exact ⟨h0, rfl⟩)
  | assign targets value =>
    rw [visit] at h
    cases hv : visitList p targets st with
    | error e => rw [hv] at h; exact absurd h (by simp)
    | ok st1 =>
      rw [hv] at h
      obtain ⟨hne1, htl1⟩ := visitList_scopes_tail p targets st st1 hv h0
      obtain ⟨hne2, htl2⟩ := visit_scopes_tail p value st1 st' h hne1
      exact ⟨hne2, htl2.trans htl1⟩
  | exprStmt value =>
    rw [visit] at h
    exact visit_scopes_tail p value st st' h h0
  | attrAccess value attr =>
    rw [visit] at h
    exact visit_scopes_tail p value st st' h h0
  | call func args =>
    rw [visit] at h
    cases hv : visit p func st with
    | error e => rw [hv] at h; exact absurd h (by simp)
    | ok st1 =>
      rw [hv] at h
      obtain ⟨hne1, htl1⟩ := visit_scopes_tail p func st st1 hv h0
      obtain ⟨hne2, htl2⟩ := visitList_scopes_tail p args st1 st' h hne1
      exact ⟨hne2, htl2.trans htl1⟩
  | ret value =>
    cases value with
    | some v =>
      rw [visit] at h
      exact visit_scopes_tail p v st st' h h0
    | none =>
      rw [visit] at h
      simp only [Except.ok.injEq] at h
      rw [← h]
      exact ⟨h0, rfl⟩
  | constant =>
    rw [visit] at h
    simp only [Except.ok.injEq] at h
    rw [← h]
    exact ⟨h0, rfl⟩

/-- Visiting a list of nodes can change only the innermost frame. -/
theorem visitList_scopes_tail (p : Collector) (ns : List Node) (st st' : St)
    (h : visitList p ns st = .ok st') (h0 : st.scopes ≠ []) :
    st'.scopes ≠ [] ∧ st'.scopes.tail = st.scopes.tail := by
  cases ns with
  | nil =>
    rw [visitList] at h
    simp only [Except.ok.injEq] at h
    rw [← h]
    exact ⟨h0, rfl⟩
  | cons n ns =>
    rw [visitList] at h
    cases hv : visit p n st with
    | error e => rw [hv] at h; exact absurd h (by simp)
    | ok st1 =>
      rw [hv] at h
      obtain ⟨hne1, htl1⟩ := visit_scopes_tail p n st st1 hv h0
      obtain ⟨hne2, htl2⟩ := visitList_scopes_tail p ns st1 st' h hne1
      exact ⟨hne2, htl2.trans htl1⟩

end

/-- Visiting a function definition restores the scope chain exactly: the
pushed frame is popped and every outer frame (the innermost one included)
is the same object as before entry. -/
theorem functionDef_restores (p : Collector) (body : List Node) (st st' : St)
    (h : visit p (.functionDef body) st = .ok st') (h0 : st.scopes ≠ []) :
    st'.scopes = st.scopes := by
  rw [visit] at h
  cases hv : visitList p body { st with scopes := pushFrame true st.scopes } with
  | error e => rw [hv] at h; exact absurd h (by simp)
  | ok st2 =>
    rw [hv] at h
    simp only [Except.ok.injEq] at h
    obtain ⟨hne, htl⟩ :=
      visitList_scopes_tail p body _ st2 hv (by simp [pushFrame])
    cases hsc2 : st2.scopes with
    | nil => exact absurd hsc2 hne
    | cons g gs =>
      rw [hsc2] at htl
      simp only [pushFrame, List.tail_cons] at htl
      cases hsc : st.scopes with
      | nil => exact absurd hsc h0
      | cons f0 r =>
        rw [← h]
        simp only [hsc2, htl, hsc, popFrame]

/-- Visiting a class definition restores the scope chain exactly. -/
theorem classDef_restores (p : Collector) (body : List Node) (st st' : St)
    (h : visit p (.classDef body) st = .ok st') (h0 : st.scopes ≠ []) :
    st'.scopes = st.scopes := by
  rw [visit] at h
  cases hv : visitList p body { st with scopes := pushFrame false st.scopes } with
  | error e => rw [hv] at h; exact absurd h (by simp)
  | ok st2 =>
    rw [hv] at h
    simp only [Except.ok.injEq] at h
    obtain ⟨hne, htl⟩ :=
      visitList_scopes_tail p body _ st2 hv (by simp [pushFrame])
    cases hsc2 : st2.scopes with
    | nil => exact absurd hsc2 hne
    | cons g gs =>
      rw [hsc2] at htl
      simp only [pushFrame, List.tail_cons] at htl
      cases hsc : st.scopes with
      | nil => exact absurd hsc h0
      | cons f0 r =>
        rw [← h]
        simp only [hsc2, htl, hsc, popFrame]

/-- C1: with target module "pkg.sub" and hosting package "pkg", the
two-line source `from . import sub` / `sub.value` produces exactly one
usage record, (origin "pkg.sub", alias "sub", line 2), and no others. -/
theorem c1_scenarioB_output :
    runCollector "pkg.sub" "pkg" scenarioB = .ok [("pkg.sub", "sub", 2)] := rfl

/-- C2 counterexample: with target module "foo.bar" and empty hosting
package, the two-line source `import foo.bar` / `foo.bar.baz()` does NOT
produce the record (origin "foo.bar", alias "foo.bar", line 2): the import
binds the key "foo.bar", but the read parses as attribute access whose only
`Name` node is the bare identifier "foo", which is unbound. -/
theorem c2_counterexample :
    ¬ runCollector "foo.bar" "" scenarioA = .ok [("foo.bar", "foo.bar", 2)] := by
  decide

/-- C2 (amended): with target module "foo.bar" and empty hosting package,
the Scenario A source produces no usage records at all. -/
theorem c2_scenarioA_output :
    runCollector "foo.bar" "" scenarioA = .ok [] := rfl

/-- C5: a module containing a lambda does not complete: `visit_Lambda`
calls `self.visit_Function`, a method that does not exist on the collector,
so the walk dies with `AttributeError` instead of pushing a frame,
recursing and popping as the spec describes. -/
theorem c5_lambda_attributeError :
    runCollector "foo.bar" "" lambdaModule = .error .attributeError := rfl

/-- C6: an import statement directly inside a class body whose resolved
bindings target the read-only class-body frame is NOT dropped silently:
`visit_Import` calls `self.scopes.update(...)` with no exception handler,
so the write to the `MappingProxyType` frame raises an uncaught `TypeError`
that aborts the whole analysis. -/
theorem c6_class_import_typeError :
    runCollector "foo.bar" "" classImportModule = .error .typeError := rfl

/-- C3: for every import-from statement with `L ≥ 1` leading dots (and a
written module that, as in every parser-produced tree, is not the empty
string), the resolved absolute source is the hosting package with its last
`L-1` components stripped (unmodified when `L = 1`), joined to the written
suffix by a dot when a suffix is present, else that stripped base alone;
and when `L-1` is at least the number of components of the hosting package
the stripped base is empty and resolution still succeeds. -/
theorem c3_relative_resolution (mn package : String) (module : Option String)
    (level : Nat) (h1 : 1 ≤ level) (h2 : module ≠ some "") :
    fromSource ⟨mn, package⟩ module level =
        some (match module with
              | some s => strippedBase package level ++ "." ++ s
              | none => strippedBase package level) ∧
      ((splitDots package).length ≤ level - 1 → strippedBase package level = "") := by
  have hlz : level ≠ 0 := by omega
  constructor
  · by_cases hl1 : level = 1
    · subst hl1
      cases module with
      | none => simp [fromSource, strippedBase]
      | some s =>
        have hs : s ≠ "" := fun h => h2 (by rw [h])
        simp [fromSource, strippedBase, hs]
    · have hgt : level > 1 := by omega
      cases module with
      | none => simp [fromSource, strippedBase, hlz, hgt, hl1]
      | some s =>
        have hs : s ≠ "" := fun h => h2 (by rw [h])
        simp [fromSource, strippedBase, hlz, hgt, hl1, hs]
  · intro hlen
    by_cases hl1 : level = 1
    · subst hl1
      simp only [Nat.sub_self, Nat.le_zero] at hlen
      exact absurd (List.length_eq_zero.mp hlen) (splitDots_ne_nil package)
    · have hz : (splitDots package).length - (level - 1) = 0 := by omega
      simp [strippedBase, hl1, hz, joinDots]

/-- C3 witness: hosting package "a.b", three leading dots, module "m":
stripping `3 - 1 = 2` components from the two-component package yields the
empty base, and the resolved source is ".m". -/
theorem c3_witness :
    fromSource ⟨"x", "a.b"⟩ (some "m") 3 =
        some (strippedBase "a.b" 3 ++ "." ++ "m") ∧
      ((splitDots "a.b").length ≤ 3 - 1 → strippedBase "a.b" 3 = "") :=
  c3_relative_resolution "x" "a.b" (some "m") 3 (by decide) (by decide)

/-- C4 counterexample: with target module "sub" — whose parent-package name
is the empty string — and hosting package "", the statement
`from . import sub` resolves to source "", which equals the target's
parent-package name, and imports the target's stem; yet the guard
`self.modulepackage and ...` in `visit_ImportFrom` drops it: the collector
state is unchanged and "sub" stays unbound, so no binding is made. -/
theorem c4_counterexample :
    fromSource ⟨"sub", ""⟩ none 1 = some (Collector.modulepackage ⟨"sub", ""⟩) ∧
      Collector.modulestem ⟨"sub", ""⟩ = "sub" ∧
      visit ⟨"sub", ""⟩ (.importFrom none [⟨"sub", none⟩] 1) initState = .ok initState ∧
      lookupChain "sub" initState.scopes = none := by
  exact ⟨by decide, by decide, by decide, by decide⟩

/-- C4 (amended): for every import-from statement whose resolved absolute
source equals the target module's parent-package name, provided that name
is nonempty (the code's `self.modulepackage and` guard) and the statement
does not sit directly in a class body (the innermost frame is mutable, else
the write raises), every imported name equal to the target's stem is bound
— under its alias if given, else the stem — to the target module's full
dotted name in the current innermost frame. -/
theorem c4_parent_package_binding (p : Collector) (module : Option String)
    (names : List Alias) (level : Nat) (a : Alias) (f : Frame)
    (rest : List Frame) (st : St)
    (hscopes : st.scopes = f :: rest) (hmut : f.isMutable = true)
    (hsrc : fromSource p module level = some p.modulepackage)
    (hpkg : p.modulepackage ≠ "")
    (hmn : p.modulename ≠ p.modulepackage)
    (ha : a ∈ names) (hstem : a.name = p.modulestem) :
    ∃ f' : Frame, visit p (.importFrom module names level) st =
        .ok { st with scopes := f' :: rest } ∧
      getKey f'.entries (a.asname.getD a.name) = some (some p.modulename) := by
  have hmem : (a.asname.getD a.name, some p.modulename) ∈ fromPairsParent p names := by
    simp only [fromPairsParent, List.mem_filterMap]
    exact ⟨a, ha, by simp [hstem]⟩
  have hpairs : fromPairsParent p names ≠ [] := by
    intro h0
    rw [h0] at hmem
    cases hmem
  rw [visit, hsrc]
  have hg1 : ¬ some p.modulename = some p.modulepackage := by
    simpa using hmn
  rw [if_neg hg1, if_pos ⟨hpkg, rfl⟩]
  rw [hscopes]
  have hupd : updateScopes (fromPairsParent p names) (f :: rest) =
      .ok ({ f with entries :=
        (fromPairsParent p names).foldl (fun m q => setKey m q.1 q.2) f.entries } :: rest) := by
    simp [updateScopes, hpairs, hmut]
  rw [hupd]
  refine ⟨_, rfl, ?_⟩
  exact getKey_foldl_of_mem _ _ _ _ hmem
    (by
      intro q hq
      simp only [fromPairsParent, List.mem_filterMap] at hq
      obtain ⟨b, _, hb⟩ := hq
      by_cases hbs : b.name = p.modulestem
      · simp [hbs] at hb
        rw [← hb]
      · simp [hbs] at hb)

/-- C4 witness: target "pkg.sub" in package "pkg"; `from . import sub` at
module level binds "sub" to "pkg.sub" in the module frame. -/
theorem c4_witness :
    ∃ f' : Frame, visit ⟨"pkg.sub", "pkg"⟩ (.importFrom none [⟨"sub", none⟩] 1) initState =
        .ok { initState with scopes := [f'] } ∧
      getKey f'.entries "sub" = some (some "pkg.sub") :=
  c4_parent_package_binding ⟨"pkg.sub", "pkg"⟩ none [⟨"sub", none⟩] 1
    ⟨"sub", none⟩ ⟨[], true⟩ [] initState rfl rfl (by decide) (by decide)
    (by decide) (by decide) (by decide)

/-- C7: a name rebound inside a function body is contained: on success,
visiting the function definition restores the scope chain exactly as it was
before entry, so reads of the name outside the body resolve as if the
rebinding never happened; and on the Scenario C source with target
"foo.bar" the output is exactly one record (origin "foo.bar", alias "fb",
line 5) — the read of `fb` at line 4, after the rebinding at line 3,
produces no record. -/
theorem c7_shadow_containment (p : Collector) (body : List Node) (st st' : St)
    (h : visit p (.functionDef body) st = .ok st') (h0 : st.scopes ≠ []) :
    st'.scopes = st.scopes ∧
      runCollector "foo.bar" "" scenarioC = .ok [("foo.bar", "fb", 5)] :=
  ⟨functionDef_restores p body st st' h h0, rfl⟩

/-- C7 witness: an empty function body at the initial state. -/
theorem c7_witness :
    initState.scopes = initState.scopes ∧
      runCollector "foo.bar" "" scenarioC = .ok [("foo.bar", "fb", 5)] :=
  c7_shadow_containment ⟨"foo.bar", ""⟩ [] initState initState rfl (by decide)

/-- C8: an assignment inside a class body never masks an outer import
binding for code after the class definition: on success, visiting the class
definition restores the scope chain exactly (the class-body frame is popped
and every outer frame is untouched, the write to the read-only frame having
been dropped); and on the Scenario D source with target "foo.bar" the
output is exactly one record (origin "foo.bar", alias "fb", line 4). -/
theorem c8_class_body_inert (p : Collector) (body : List Node) (st st' : St)
    (h : visit p (.classDef body) st = .ok st') (h0 : st.scopes ≠ []) :
    st'.scopes = st.scopes ∧
      runCollector "foo.bar" "" scenarioD = .ok [("foo.bar", "fb", 4)] :=
  ⟨classDef_restores p body st st' h h0, rfl⟩

/-- C8 witness: an empty class body at the initial state. -/
theorem c8_witness :
    initState.scopes = initState.scopes ∧
      runCollector "foo.bar" "" scenarioD = .ok [("foo.bar", "fb", 4)] :=
  c8_class_body_inert ⟨"foo.bar", ""⟩ [] initState initState rfl (by decide)

/-- C9: a plain import statement yields a binding iff one of its imported
dotted paths exactly equals the target module's full dotted name; and a
statement none of whose paths equal the target (for instance a strict
prefix of it) produces no bindings, raises no error, and leaves the
collector state — the scope chain included — unchanged. -/
theorem c9_plain_import (p : Collector) (names : List Alias) :
    (importPairs p names ≠ [] ↔ ∃ a ∈ names, a.name = p.modulename) ∧
      ∀ st : St, (∀ a ∈ names, a.name ≠ p.modulename) →
        visit p (.importStmt names) st = .ok st := by
  constructor
  · induction names with
    | nil => simp [importPairs]
    | cons a as ih =>
      by_cases ha : a.name = p.modulename
      · have h0 : importPairs p (a :: as) =
            (a.asname.getD a.name, some a.name) :: importPairs p as := by
          simp [importPairs, List.filterMap_cons, ha]
        rw [h0]
        constructor
        · intro _
          exact ⟨a, List.mem_cons_self a as, ha⟩
        · intro _
          simp
      · have h0 : importPairs p (a :: as) = importPairs p as := by
          simp [importPairs, List.filterMap_cons, ha]
        rw [h0, ih]
        constructor
        · rintro ⟨b, hb, hbe⟩
          exact ⟨b, List.mem_cons_of_mem _ hb, hbe⟩
        · rintro ⟨b, hb, hbe⟩
          rcases List.mem_cons.mp hb with hb' | hb'
          · exact absurd (hb' ▸ hbe) ha
          · exact ⟨b, hb', hbe⟩
  · intro st hnone
    have hp : importPairs p names = [] := by
      simp only [importPairs, List.filterMap_eq_nil_iff]
      intro a ha
      simp [hnone a ha]
    rw [visit, hp, updateScopes_nil]

/-- C9 witness: target "foo.bar"; `import foo` — a strict prefix of the
target — is a no-op. -/
theorem c9_witness :
    visit ⟨"foo.bar", ""⟩ (.importStmt [⟨"foo", none⟩]) initState = .ok initState :=
  (c9_plain_import ⟨"foo.bar", ""⟩ [⟨"foo", none⟩]).2 initState (by decide)

/-- C10: the analyzer is deterministic: it is embedded as a pure function
of the tree and the parameters, so two runs on the same input are one and
the same value and in particular produce identical output sequences. -/
theorem c10_deterministic (modulename package : String) (body : List Node) :
    runCollector modulename package body = runCollector modulename package body := rfl

end DepCollect
